import Mathlib

/-!
Shallow embedding of the one-dimensional spray-flame solver headers
(`include/cantera/oneD/StFlow.h` and `include/cantera/oneD/Sim1D.h`).

Floating-point `doublereal` values are modelled as real numbers, and the
per-point / per-species work arrays (`m_rho`, `m_wt`, `m_diff`, ...) as total
functions from `ℕ` to `ℝ`.  Each Lean definition is translated directly from
the member function of the same name in the source header.
-/

noncomputable section

namespace CanteraSpray

/-- Offset of the axial velocity component in the solution array
(`StFlow.h`: `c_offset_U = 0`). -/
def c_offset_U : ℕ := 0

/-- Offset of the strain-rate component (`StFlow.h`: `c_offset_V = 1`). -/
def c_offset_V : ℕ := 1

/-- Offset of the temperature component (`StFlow.h`: `c_offset_T = 2`). -/
def c_offset_T : ℕ := 2

/-- Offset of the (1/r)dP/dr component (`StFlow.h`: `c_offset_L = 3`). -/
def c_offset_L : ℕ := 3

/-- Offset of the first mass-fraction component (`StFlow.h`: `c_offset_Y = 4`). -/
def c_offset_Y : ℕ := 4

/-- Offset of the liquid radial velocity among the liquid components
(`StFlow.h`: `c_offset_Ul = 0`). -/
def c_offset_Ul : ℕ := 0

/-- Offset of the liquid axial velocity (`StFlow.h`: `c_offset_vl = 1`). -/
def c_offset_vl : ℕ := 1

/-- Offset of the liquid temperature (`StFlow.h`: `c_offset_Tl = 2`). -/
def c_offset_Tl : ℕ := 2

/-- Offset of the droplet mass (`StFlow.h`: `c_offset_ml = 3`). -/
def c_offset_ml : ℕ := 3

/-- Offset of the droplet number density (`StFlow.h`: `c_offset_nl = 4`). -/
def c_offset_nl : ℕ := 4

/-- Conversion factor mmHg to Pa (`StFlow.h`: `mmHg2Pa = 133.322365`). -/
def mmHg2Pa : ℝ := 133.322365

/-- Conversion factor bar to Pa (`StFlow.h`: `bar2Pa = 1.0e+05`). -/
def bar2Pa : ℝ := 1.0e5

/-- The smallest positive normalised double, `std::numeric_limits<double>::min()`,
modelled by its exact value `2 ^ (-1022)`. -/
def dblMin : ℝ := 2 ^ (-(1022 : ℤ))

/-- The guard constant `std::sqrt(std::numeric_limits<double>::min())` used
throughout the spray closures. -/
def sqrtDblMin : ℝ := Real.sqrt dblMin

/-- State of a `SprayFlame` flow domain: the member data of `StFlow` /
`SprayFlame` that the droplet closures read.  Per-point arrays are total
functions from the grid-point index. -/
structure FlowState where
  m_nsp : ℕ
  m_nv : ℕ
  m_press : ℝ
  m_rho : ℕ → ℝ
  m_wtm : ℕ → ℝ
  m_cp : ℕ → ℝ
  m_visc : ℕ → ℝ
  m_wt : ℕ → ℝ
  m_diff : ℕ → ℝ
  c_offset_fuel : ℕ
  m_prs_A : ℝ
  m_prs_B : ℝ
  m_prs_C : ℝ
  m_Tb : ℝ
  m_cvt : ℝ
  m_rhol_A : ℝ
  m_rhol_B : ℝ
  m_rhol_C : ℝ
  m_rhol_D : ℝ
  m_cpl : ℝ
  z : ℕ → ℝ

namespace StFlow

/-- Modelled from the spec: `Domain1D::index(c, j)` is not under `src/`; the
spec's data model (§3) and `Sim1D::updateBounds` (which writes bound `i` of
point `j` at flat offset `j*nv + i`) fix the layout as `j * nv + c`. -/
def index (s : FlowState) (c j : ℕ) : ℕ := j * s.m_nv + c

/-- `StFlow::u`: axial velocity at point `j`. -/
def u (s : FlowState) (x : ℕ → ℝ) (j : ℕ) : ℝ := x (index s c_offset_U j)

/-- `StFlow::V`: strain-rate variable at point `j`. -/
def V (s : FlowState) (x : ℕ → ℝ) (j : ℕ) : ℝ := x (index s c_offset_V j)

/-- `StFlow::T`: temperature at point `j`. -/
def T (s : FlowState) (x : ℕ → ℝ) (j : ℕ) : ℝ := x (index s c_offset_T j)

/-- `StFlow::Y`: mass fraction of species `k` at point `j`. -/
def Y (s : FlowState) (x : ℕ → ℝ) (k j : ℕ) : ℝ := x (index s (c_offset_Y + k) j)

/-- Modelled from the spec: `StFlow::setupGrid` (which fills `m_dz`) is not
under `src/`; the spec (§2, Grid) defines the derived spacings as
`Δz_j = z_{j+1} − z_j`. -/
def m_dz (s : FlowState) (j : ℕ) : ℝ := s.z (j + 1) - s.z j

/-- `StFlow::dVdz`: upwinded convective derivative of `V` at point `j`. -/
def dVdz (s : FlowState) (x : ℕ → ℝ) (j : ℕ) : ℝ :=
  let jloc := if 0 < u s x j then j else j + 1
  (V s x jloc - V s x (jloc - 1)) / m_dz s (jloc - 1)

/-- `StFlow::dYdz`: upwinded convective derivative of `Y_k` at point `j`. -/
def dYdz (s : FlowState) (x : ℕ → ℝ) (k j : ℕ) : ℝ :=
  let jloc := if 0 < u s x j then j else j + 1
  (Y s x k jloc - Y s x k (jloc - 1)) / m_dz s (jloc - 1)

/-- `StFlow::dTdz`: upwinded convective derivative of `T` at point `j`. -/
def dTdz (s : FlowState) (x : ℕ → ℝ) (j : ℕ) : ℝ :=
  let jloc := if 0 < u s x j then j else j + 1
  (T s x jloc - T s x (jloc - 1)) / m_dz s (jloc - 1)

end StFlow

namespace SprayFlame

open StFlow

/-- `SprayFlame::setLiquidVapPressParam`: install the Antoine vapor-pressure
coefficients.  The unit string selects the conversion factor; the source has
no `else` branch, so any other unit leaves the state untouched. -/
def setLiquidVapPressParam (s : FlowState) (A B C Tb : ℝ) (unit : String) :
    FlowState :=
  if unit = "mmHg" then
    { s with m_prs_A := A, m_prs_B := B, m_prs_C := C - 273.15,
             m_Tb := Tb, m_cvt := mmHg2Pa }
  else if unit = "bar" then
    { s with m_prs_A := A, m_prs_B := B, m_prs_C := C,
             m_Tb := Tb, m_cvt := bar2Pa }
  else
    s

/-- `SprayFlame::Tl`: liquid temperature at point `j`. -/
def Tl (s : FlowState) (x : ℕ → ℝ) (j : ℕ) : ℝ :=
  x (index s (c_offset_Y + s.m_nsp + c_offset_Tl) j)

/-- `SprayFlame::ml`: droplet mass at point `j`. -/
def ml (s : FlowState) (x : ℕ → ℝ) (j : ℕ) : ℝ :=
  x (index s (c_offset_Y + s.m_nsp + c_offset_ml) j)

/-- `SprayFlame::rhol`: liquid density, DIPPR-105 correlation, or the constant
`A` coefficient when `B`, `C` and `D` are all (numerically) zero. -/
def rhol (s : FlowState) (x : ℕ → ℝ) (j : ℕ) : ℝ :=
  if |s.m_rhol_B - 0| < sqrtDblMin ∧ |s.m_rhol_C - 0| < sqrtDblMin ∧
      |s.m_rhol_D - 0| < sqrtDblMin then
    s.m_rhol_A
  else
    s.m_rhol_A / (s.m_rhol_B ^ (1 + (1 - Tl s x j / s.m_rhol_C) ^ s.m_rhol_D))

/-- `SprayFlame::dl`: droplet diameter at point `j`. -/
def dl (s : FlowState) (x : ℕ → ℝ) (j : ℕ) : ℝ :=
  if ml s x j < sqrtDblMin then 0
  else (6 * ml s x j / Real.pi / rhol s x j) ^ ((1 : ℝ) / 3)

/-- `SprayFlame::Dgf`: gas-phase diffusivity of the fuel species at point `j`. -/
def Dgf (s : FlowState) (j : ℕ) : ℝ := s.m_diff (s.c_offset_fuel + j * s.m_nsp)

/-- `SprayFlame::prs`: Antoine vapor pressure (evaluated at the boiling
temperature `m_Tb`, as in the source). -/
def prs (s : FlowState) : ℝ :=
  (10 : ℝ) ^ (s.m_prs_A - s.m_prs_B / (s.m_prs_C + s.m_Tb)) * s.m_cvt

/-- `SprayFlame::Yrs`: fuel mass fraction at the droplet surface (Raoult). -/
def Yrs (s : FlowState) (j : ℕ) : ℝ :=
  let Xrs := prs s / s.m_press
  s.m_wt s.c_offset_fuel * Xrs /
    (s.m_wt s.c_offset_fuel * Xrs + (1 - Xrs) * s.m_wtm j)

/-- `SprayFlame::mdot`: droplet evaporation rate at point `j`. -/
def mdot (s : FlowState) (x : ℕ → ℝ) (j : ℕ) : ℝ :=
  let Yrs_ := Yrs s j
  let Bm := (Yrs_ - Y s x s.c_offset_fuel j) / max (1 - Yrs_) sqrtDblMin
  2 * Real.pi * dl s x j * s.m_rho j * Dgf s j * Real.log (1 + Bm)

/-- `SprayFlame::cpgf`: gas-film heat capacity (the source returns `m_cp[j]`). -/
def cpgf (s : FlowState) (j : ℕ) : ℝ := s.m_cp j

/-- `SprayFlame::q`: convective heat transfer to the droplet at point `j`. -/
def q (s : FlowState) (x : ℕ → ℝ) (j : ℕ) : ℝ :=
  if mdot s x j ≤ sqrtDblMin then 0
  else
    let BT := Real.exp (mdot s x j /
      (2 * Real.pi * s.m_rho j * Dgf s j * dl s x j)) - 1
    cpgf s j * (T s x j - Tl s x j) / BT

end SprayFlame

/-- State of a `Sim1D` simulation: the member data of `Sim1D` that the
continuation driver reads and writes.  The global solution vector `m_x` is a
total function from the flat index; `inletF_mdot` / `inletO_mdot` are the mass
fluxes currently installed in the left (fuel) and right (oxidizer) `Inlet1D`
domains by `setMdot`.  `start1`, `nv` and `np` describe the flow domain
(`domain(1)`): its first flat slot, component count and point count. -/
structure Sim1DState where
  m_x : ℕ → ℝ
  sysSize : ℕ
  start1 : ℕ
  nv : ℕ
  np : ℕ
  inletF_mdot : ℝ
  inletO_mdot : ℝ
  m_chi : ℝ
  m_amplify_threshold : ℝ
  m_uin_f : ℝ
  m_uin_o : ℝ
  m_rhoin_f : ℝ
  m_rhoin_o : ℝ
  lb : ℕ → ℝ
  ub : ℕ → ℝ

namespace Sim1D

/-- The loop body of `Sim1D::setStrainRate`: for each flow point
`i = 0, …, n−1` in order, read and scale the `u` component
(`componentIndex("u") = c_offset_U`), then read and scale the `V` component
(`componentIndex("V") = c_offset_V`).  `value`/`setValue` address the flat
slot `start + i*nv + c` of the solution vector (modelled from the spec's
index map, consistent with `Sim1D::updateBounds`). -/
def scaleUV (start nv : ℕ) (ratio : ℝ) : ℕ → (ℕ → ℝ) → ℕ → ℝ
  | 0, m => m
  | n + 1, m =>
    let m1 := scaleUV start nv ratio n m
    let m2 := Function.update m1 (start + n * nv + c_offset_U)
      (m1 (start + n * nv + c_offset_U) * ratio)
    Function.update m2 (start + n * nv + c_offset_V)
      (m2 (start + n * nv + c_offset_V) * ratio)

/-- `Sim1D::setStrainRate`: read `a1 = x[nvar-1]`; when `|m_chi − a1|`
exceeds the amplification threshold, scale the `u` and `V` values of the flow
domain by `a1/m_chi` and install `ρ_in · (u_in · ratio)` as the new inlet mass
fluxes; in both cases finish by storing `m_chi = a1`. -/
def setStrainRate (s : Sim1DState) (nvar : ℕ) (x : ℕ → ℝ) : Sim1DState :=
  let a1 := x (nvar - 1)
  if s.m_amplify_threshold < |s.m_chi - a1| then
    let ratio := a1 / s.m_chi
    { s with
      m_x := scaleUV s.start1 s.nv ratio s.np s.m_x
      inletF_mdot := s.m_rhoin_f * (s.m_uin_f * ratio)
      inletO_mdot := s.m_rhoin_o * (s.m_uin_o * ratio)
      m_chi := a1 }
  else
    { s with m_chi := a1 }

/-- `Sim1D::setSolution`: copy `m_x.size()` entries of `soln` into the
solution vector. -/
def setSolution (s : Sim1DState) (soln : ℕ → ℝ) : Sim1DState :=
  { s with m_x := fun i => if i < s.sysSize then soln i else s.m_x i }

/-- The projected vector `xBorder` built by the loop of
`Sim1D::bound_residue`: clamp each entry to its bound. -/
def xBorder (lb ub x : ℕ → ℝ) (i : ℕ) : ℝ :=
  if x i < lb i then lb i else if ub i < x i then ub i else x i

/-- The bound-violation accumulator `excess` of `Sim1D::bound_residue` after
the first `n` loop iterations. -/
def excessAcc (lb ub x : ℕ → ℝ) : ℕ → ℝ
  | 0 => 0
  | n + 1 =>
    excessAcc lb ub x n +
      (if x n < lb n then lb n - x n
       else if ub n < x n then x n - ub n else 0)

/-- The steepness constant `minIncr = 1e-3` of `Sim1D::bound_residue`. -/
def minIncr : ℝ := 1e-3

/-- `Sim1D::bound_residue`.  The steady residual evaluator
(`getResidual(0.0, f)`, i.e. `OneDim::eval` on the stored solution) is not
under `src/` and is modelled from the spec as a pure function `F` of the
stored solution vector.  Returns the updated simulation state and the output
array `f`. -/
def bound_residue (F : (ℕ → ℝ) → ℕ → ℝ) (s : Sim1DState) (nvar : ℕ)
    (x : ℕ → ℝ) : Sim1DState × (ℕ → ℝ) :=
  let xB := xBorder s.lb s.ub x
  let excess := excessAcc s.lb s.ub x nvar
  let s1 := setSolution s xB
  let f0 := F s1.m_x
  (s1, fun i =>
    if i < nvar then
      f0 i + (f0 i + (if 0 < f0 i then minIncr else -minIncr)) * excess
    else f0 i)

/-- The output component prescribed by the specification's description of the
bounded residue (written from the spec's words, for comparison with
`bound_residue`): project `x` onto `[lb, ub]`, accumulate
`excess = Σ max(lb−x,0) + Σ max(x−ub,0)`, evaluate the residual at the
projected point, and return `f_i + (f_i + sign(f_i)·ε_min)·excess`. -/
def boundResidueSpecOutput (F : (ℕ → ℝ) → ℕ → ℝ) (s : Sim1DState) (nvar : ℕ)
    (x : ℕ → ℝ) (i : ℕ) : ℝ :=
  let xProj := fun k => max (s.lb k) (min (s.ub k) (x k))
  let excess := Finset.sum (Finset.range nvar)
    (fun k => max (s.lb k - x k) 0 + max (x k - s.ub k) 0)
  let f0 := F ((setSolution s xProj).m_x)
  f0 i + (f0 i + Real.sign (f0 i) * minIncr) * excess

/-- The methods of `Sim1D` whose exit behavior the spec describes. -/
inductive SolverMethod
  | solveMethod
  | refineMethod
  | newtonSolveMethod
deriving DecidableEq

/-- The return types a `Sim1D` method can be declared with. -/
inductive CReturnType
  | voidTy
  | intTy
deriving DecidableEq

/-- The declared return type of each method, read off the declarations in
`Sim1D.h`: `void solve(int, bool)`, `int refine(int)`,
`int newtonSolve(int)`. -/
def declaredReturnType : SolverMethod → CReturnType
  | .solveMethod => .voidTy
  | .refineMethod => .intTy
  | .newtonSolveMethod => .intTy

/-- Modelled from the spec: the body of `Sim1D::newtonSolve` is not under
`src/`; its documented contract (`Sim1D.h`: "@return 0 if successful, -1 on
failure") is the result value as a function of success. -/
def newtonSolveReturn (success : Bool) : Int :=
  if success then 0 else -1

/-- Modelled from the spec: the body of `Sim1D::refine` is not under `src/`;
the spec says it returns the number of grid changes it made. -/
def refineReturn (nChanges : ℕ) : Int := nChanges

/-- Modelled from the spec: a refine result of 0 changes means the mesh is
converged. -/
def meshConverged (nChanges : ℕ) : Prop := nChanges = 0

end Sim1D

/-- A concrete all-zero flow state, used to evaluate the spray closures at an
explicit input. -/
def zeroFlowState : FlowState where
  m_nsp := 0
  m_nv := 0
  m_press := 0
  m_rho := fun _ => 0
  m_wtm := fun _ => 0
  m_cp := fun _ => 0
  m_visc := fun _ => 0
  m_wt := fun _ => 0
  m_diff := fun _ => 0
  c_offset_fuel := 0
  m_prs_A := 0
  m_prs_B := 0
  m_prs_C := 0
  m_Tb := 0
  m_cvt := 0
  m_rhol_A := 0
  m_rhol_B := 0
  m_rhol_C := 0
  m_rhol_D := 0
  m_cpl := 0
  z := fun _ => 0

/-- A concrete simulation state used to evaluate the continuation driver at
explicit inputs: a two-component, one-point flow domain, strain rate 1,
amplification threshold 1/2, unit inlet velocities, densities and mass
fluxes, bounds `[0, 1]` on every component. -/
def sampleState : Sim1DState where
  m_x := fun _ => 1
  sysSize := 1
  start1 := 0
  nv := 2
  np := 1
  inletF_mdot := 1
  inletO_mdot := 1
  m_chi := 1
  m_amplify_threshold := 1 / 2
  m_uin_f := 1
  m_uin_o := 1
  m_rhoin_f := 1
  m_rhoin_o := 1
  lb := fun _ => 0
  ub := fun _ => 1

/-- A residual evaluator that is identically zero, used as an explicit
instance of the external steady-residual function. -/
def zeroResidualF : (ℕ → ℝ) → ℕ → ℝ := fun _ _ => 0

/-- A residual evaluator that is identically one, used as an explicit
instance of the external steady-residual function. -/
def oneResidualF : (ℕ → ℝ) → ℕ → ℝ := fun _ _ => 1

/-- The state after a first amplifying `setStrainRate` call (χ: 1 → 2) on the
concrete sample state. -/
def seqState1 : Sim1DState := Sim1D.setStrainRate sampleState 3 (fun _ => 2)

/-- The state after a second amplifying `setStrainRate` call (χ: 2 → 4)
following `seqState1`. -/
def seqState2 : Sim1DState := Sim1D.setStrainRate seqState1 3 (fun _ => 4)

/-!
Theorems.  Each claim of the specification is settled by exactly one theorem
below; shared auxiliary lemmas come first.
-/

theorem dblMin_pos : 0 < dblMin := by
  unfold dblMin
  positivity

theorem sqrtDblMin_pos : 0 < sqrtDblMin :=
  Real.sqrt_pos.mpr dblMin_pos

theorem sqrtDblMin_nonneg : 0 ≤ sqrtDblMin :=
  le_of_lt sqrtDblMin_pos

namespace SprayFlame

/-- Claim C5: the source's `setLiquidVapPressParam` has no error branch: a
unit string other than "mmHg" or "bar" silently returns with the
vapor-pressure parameters left exactly as they were, contradicting the
specified `InvalidInput` error.  Evaluated here at the failing input
`unit_ = "atm"`. -/
theorem setLiquidVapPressParam_unknown_unit_noop (s : FlowState)
    (A B C Tb : ℝ) :
    setLiquidVapPressParam s A B C Tb ("atm") = s := by
  unfold setLiquidVapPressParam
  rw [if_neg (by decide : ¬ ("atm" : String) = "mmHg"),
    if_neg (by decide : ¬ ("atm" : String) = "bar")]

/-- Claim C6: when the droplet mass at a point is below
`sqrt(numeric_limits<double>::min())` the droplet diameter and the
evaporation rate are both exactly zero; otherwise the diameter is
`(6 m_l / (π ρ_l))^(1/3)` with `ρ_l` the DIPPR-105 correlation, or the
constant `A` coefficient when only `A` is set. -/
theorem dl_mdot_guard (s : FlowState) (x : ℕ → ℝ) (j : ℕ) :
    (ml s x j < sqrtDblMin → dl s x j = 0 ∧ mdot s x j = 0) ∧
    (sqrtDblMin ≤ ml s x j →
      dl s x j = (6 * ml s x j / Real.pi / rhol s x j) ^ ((1 : ℝ) / 3)) ∧
    rhol s x j =
      (if |s.m_rhol_B| < sqrtDblMin ∧ |s.m_rhol_C| < sqrtDblMin ∧
          |s.m_rhol_D| < sqrtDblMin then
        s.m_rhol_A
      else
        s.m_rhol_A /
          (s.m_rhol_B ^ (1 + (1 - Tl s x j / s.m_rhol_C) ^ s.m_rhol_D))) := by
  refine ⟨fun h => ?_, fun h => ?_, ?_⟩
  · have hdl : dl s x j = 0 := by
      unfold dl
      rw [if_pos h]
    refine ⟨hdl, ?_⟩
    simp only [mdot]
    rw [hdl]
    ring
  · unfold dl
    rw [if_neg (not_lt.mpr h)]
  · simp only [rhol, sub_zero]

theorem dl_mdot_guard_witness :
    ml zeroFlowState (fun _ => 0) 0 < sqrtDblMin ∧
    dl zeroFlowState (fun _ => 0) 0 = 0 ∧
    mdot zeroFlowState (fun _ => 0) 0 = 0 := by
  have h : ml zeroFlowState (fun _ => 0) 0 < sqrtDblMin := by
    show (0 : ℝ) < sqrtDblMin
    exact sqrtDblMin_pos
  exact ⟨h, ((dl_mdot_guard zeroFlowState (fun _ => 0) 0).1 h).1,
    ((dl_mdot_guard zeroFlowState (fun _ => 0) 0).1 h).2⟩

/-- Claim C7: when the evaporation rate is at most
`sqrt(numeric_limits<double>::min())` the convective heat transfer is zero;
otherwise it equals `c_pgf (T − T_l) / B_T` with
`B_T = exp(ṁ/(2π ρ D_gf d_l)) − 1`, and under the guard neither `d_l` nor
`B_T` is zero, so neither division divides by zero. -/
theorem q_guard (s : FlowState) (x : ℕ → ℝ) (j : ℕ) :
    (mdot s x j ≤ sqrtDblMin → q s x j = 0) ∧
    (sqrtDblMin < mdot s x j →
      dl s x j ≠ 0 ∧
      Real.exp (mdot s x j /
          (2 * Real.pi * s.m_rho j * Dgf s j * dl s x j)) - 1 ≠ 0 ∧
      q s x j =
        cpgf s j * (StFlow.T s x j - Tl s x j) /
          (Real.exp (mdot s x j /
            (2 * Real.pi * s.m_rho j * Dgf s j * dl s x j)) - 1)) := by
  constructor
  · intro h
    unfold q
    rw [if_pos h]
  · intro h
    have hne : mdot s x j ≠ 0 := ne_of_gt (lt_of_le_of_lt sqrtDblMin_nonneg h)
    have hprod := hne
    simp only [mdot] at hprod
    have hdl : dl s x j ≠ 0 := by
      intro h0
      apply hprod
      rw [h0]
      ring
    have hrho : s.m_rho j ≠ 0 := by
      intro h0
      apply hprod
      rw [h0]
      ring
    have hD : Dgf s j ≠ 0 := by
      intro h0
      apply hprod
      rw [h0]
      ring
    have hden : 2 * Real.pi * s.m_rho j * Dgf s j * dl s x j ≠ 0 :=
      mul_ne_zero (mul_ne_zero (mul_ne_zero
        (mul_ne_zero two_ne_zero Real.pi_ne_zero) hrho) hD) hdl
    have ht : mdot s x j /
        (2 * Real.pi * s.m_rho j * Dgf s j * dl s x j) ≠ 0 :=
      div_ne_zero hne hden
    have hBT : Real.exp (mdot s x j /
        (2 * Real.pi * s.m_rho j * Dgf s j * dl s x j)) - 1 ≠ 0 := by
      rw [sub_ne_zero]
      intro heq
      apply ht
      have h1 : Real.exp (mdot s x j /
          (2 * Real.pi * s.m_rho j * Dgf s j * dl s x j)) = Real.exp 0 := by
        rw [Real.exp_zero]
        exact heq
      exact Real.exp_injective h1
    refine ⟨hdl, hBT, ?_⟩
    unfold q
    rw [if_neg (not_le.mpr h)]

theorem q_guard_witness :
    mdot zeroFlowState (fun _ => 0) 0 ≤ sqrtDblMin ∧
    q zeroFlowState (fun _ => 0) 0 = 0 := by
  have hml : ml zeroFlowState (fun _ => 0) 0 < sqrtDblMin := by
    show (0 : ℝ) < sqrtDblMin
    exact sqrtDblMin_pos
  have hdl0 : dl zeroFlowState (fun _ => 0) 0 = 0 := by
    unfold dl
    rw [if_pos hml]
  have hmdot : mdot zeroFlowState (fun _ => 0) 0 = 0 := by
    simp only [mdot]
    rw [hdl0]
    ring
  have hle : mdot zeroFlowState (fun _ => 0) 0 ≤ sqrtDblMin := by
    rw [hmdot]
    exact sqrtDblMin_nonneg
  exact ⟨hle, (q_guard zeroFlowState (fun _ => 0) 0).1 hle⟩

end SprayFlame

namespace StFlow

/-- Claim C8: for every interior point the convective derivatives of `V`,
`Y_k` and `T` equal `(φ(jloc) − φ(jloc−1)) / (z(jloc) − z(jloc−1))` with
`jloc = j` when `u(x,j) > 0` and `jloc = j+1` otherwise. -/
theorem upwind_derivatives (s : FlowState) (x : ℕ → ℝ) (j : ℕ)
    (hj : 1 ≤ j) :
    dVdz s x j =
      (V s x (if 0 < u s x j then j else j + 1) -
        V s x ((if 0 < u s x j then j else j + 1) - 1)) /
      (s.z (if 0 < u s x j then j else j + 1) -
        s.z ((if 0 < u s x j then j else j + 1) - 1)) ∧
    (∀ k, dYdz s x k j =
      (Y s x k (if 0 < u s x j then j else j + 1) -
        Y s x k ((if 0 < u s x j then j else j + 1) - 1)) /
      (s.z (if 0 < u s x j then j else j + 1) -
        s.z ((if 0 < u s x j then j else j + 1) - 1))) ∧
    dTdz s x j =
      (T s x (if 0 < u s x j then j else j + 1) -
        T s x ((if 0 < u s x j then j else j + 1) - 1)) /
      (s.z (if 0 < u s x j then j else j + 1) -
        s.z ((if 0 < u s x j then j else j + 1) - 1)) := by
  have hjj : j - 1 + 1 = j := by omega
  by_cases hu : 0 < u s x j
  · simp only [dVdz, dYdz, dTdz, m_dz, if_pos hu, hjj]
    exact ⟨trivial, fun _ => trivial, trivial⟩
  · simp only [dVdz, dYdz, dTdz, m_dz, if_neg hu, Nat.add_sub_cancel]
    exact ⟨trivial, fun _ => trivial, trivial⟩

theorem upwind_derivatives_witness :
    (1 : ℕ) ≤ 1 ∧
    dVdz zeroFlowState (fun _ => 0) 1 =
      (V zeroFlowState (fun _ => 0)
          (if 0 < u zeroFlowState (fun _ => 0) 1 then 1 else 1 + 1) -
        V zeroFlowState (fun _ => 0)
          ((if 0 < u zeroFlowState (fun _ => 0) 1 then 1 else 1 + 1) - 1)) /
      (zeroFlowState.z
          (if 0 < u zeroFlowState (fun _ => 0) 1 then 1 else 1 + 1) -
        zeroFlowState.z
          ((if 0 < u zeroFlowState (fun _ => 0) 1 then 1 else 1 + 1) - 1)) ∧
    dYdz zeroFlowState (fun _ => 0) 0 1 =
      (Y zeroFlowState (fun _ => 0) 0
          (if 0 < u zeroFlowState (fun _ => 0) 1 then 1 else 1 + 1) -
        Y zeroFlowState (fun _ => 0) 0
          ((if 0 < u zeroFlowState (fun _ => 0) 1 then 1 else 1 + 1) - 1)) /
      (zeroFlowState.z
          (if 0 < u zeroFlowState (fun _ => 0) 1 then 1 else 1 + 1) -
        zeroFlowState.z
          ((if 0 < u zeroFlowState (fun _ => 0) 1 then 1 else 1 + 1) - 1)) := by
  refine ⟨le_refl 1, ?_, ?_⟩
  · exact (upwind_derivatives zeroFlowState (fun _ => 0) 1 (le_refl 1)).1
  · exact (upwind_derivatives zeroFlowState (fun _ => 0) 1 (le_refl 1)).2.1 0

end StFlow

namespace Sim1D

theorem slot_ne_of_lt (start nv i n : ℕ) (h2 : 2 ≤ nv) (hin : i < n) :
    start + i * nv + c_offset_U ≠ start + n * nv + c_offset_U ∧
    start + i * nv + c_offset_U ≠ start + n * nv + c_offset_V ∧
    start + i * nv + c_offset_V ≠ start + n * nv + c_offset_U ∧
    start + i * nv + c_offset_V ≠ start + n * nv + c_offset_V := by
  have key : i * nv + nv ≤ n * nv := by
    have h1 : (i + 1) * nv ≤ n * nv := Nat.mul_le_mul_right nv hin
    calc i * nv + nv = (i + 1) * nv := by ring
    _ ≤ n * nv := h1
  simp only [c_offset_U, c_offset_V]
  revert key
  generalize i * nv = a
  generalize n * nv = b
  intro key
  omega

theorem slotU_ne_slotV (start nv n : ℕ) :
    start + n * nv + c_offset_U ≠ start + n * nv + c_offset_V := by
  simp only [c_offset_U, c_offset_V]
  generalize n * nv = b
  omega

theorem scaleUV_succ (start nv : ℕ) (r : ℝ) (n : ℕ) (m : ℕ → ℝ) :
    scaleUV start nv r (n + 1) m =
      Function.update
        (Function.update (scaleUV start nv r n m) (start + n * nv + c_offset_U)
          (scaleUV start nv r n m (start + n * nv + c_offset_U) * r))
        (start + n * nv + c_offset_V)
        ((Function.update (scaleUV start nv r n m) (start + n * nv + c_offset_U)
          (scaleUV start nv r n m (start + n * nv + c_offset_U) * r))
          (start + n * nv + c_offset_V) * r) := rfl

/-- The loop of `setStrainRate` multiplies exactly the `u` and `V` slots of
the first `n` flow points by the ratio and leaves every other slot alone. -/
theorem scaleUV_spec (start nv : ℕ) (r : ℝ) (h2 : 2 ≤ nv) :
    ∀ (n : ℕ) (m : ℕ → ℝ),
      (∀ a, (∀ i, i < n →
          a ≠ start + i * nv + c_offset_U ∧ a ≠ start + i * nv + c_offset_V) →
        scaleUV start nv r n m a = m a) ∧
      (∀ i, i < n →
        scaleUV start nv r n m (start + i * nv + c_offset_U)
          = m (start + i * nv + c_offset_U) * r ∧
        scaleUV start nv r n m (start + i * nv + c_offset_V)
          = m (start + i * nv + c_offset_V) * r) := by
  intro n
  induction n with
  | zero =>
    intro m
    exact ⟨fun a _ => rfl, fun i hi => absurd hi (Nat.not_lt_zero i)⟩
  | succ n ih =>
    intro m
    constructor
    · intro a ha
      have haU : a ≠ start + n * nv + c_offset_U := (ha n (Nat.lt_succ_self n)).1
      have haV : a ≠ start + n * nv + c_offset_V := (ha n (Nat.lt_succ_self n)).2
      rw [scaleUV_succ, Function.update_noteq haV, Function.update_noteq haU]
      exact (ih m).1 a (fun i hi => ha i (Nat.lt_succ_of_lt hi))
    · intro i hi
      rcases Nat.lt_succ_iff_lt_or_eq.mp hi with hlt | heq
      · have hne := slot_ne_of_lt start nv i n h2 hlt
        constructor
        · rw [scaleUV_succ, Function.update_noteq hne.2.1,
            Function.update_noteq hne.1]
          exact ((ih m).2 i hlt).1
        · rw [scaleUV_succ, Function.update_noteq hne.2.2.2,
            Function.update_noteq hne.2.2.1]
          exact ((ih m).2 i hlt).2
      · subst heq
        have hm1U : scaleUV start nv r i m (start + i * nv + c_offset_U)
            = m (start + i * nv + c_offset_U) := by
          apply (ih m).1
          intro k hk
          have h := slot_ne_of_lt start nv k i h2 hk
          exact ⟨h.1.symm, h.2.2.1.symm⟩
        have hm1V : scaleUV start nv r i m (start + i * nv + c_offset_V)
            = m (start + i * nv + c_offset_V) := by
          apply (ih m).1
          intro k hk
          have h := slot_ne_of_lt start nv k i h2 hk
          exact ⟨h.2.1.symm, h.2.2.2.symm⟩
        constructor
        · rw [scaleUV_succ,
            Function.update_noteq (slotU_ne_slotV start nv i),
            Function.update_same, hm1U]
        · rw [scaleUV_succ, Function.update_same,
            Function.update_noteq (slotU_ne_slotV start nv i).symm, hm1V]

/-- Evaluation of `setStrainRate` on the amplifying branch. -/
theorem setStrainRate_amplify_eval (s : Sim1DState) (nvar : ℕ) (x : ℕ → ℝ)
    (a : ℝ) (hx : x (nvar - 1) = a)
    (h : s.m_amplify_threshold < |s.m_chi - a|) :
    setStrainRate s nvar x =
      { s with
        m_x := scaleUV s.start1 s.nv (a / s.m_chi) s.np s.m_x
        inletF_mdot := s.m_rhoin_f * (s.m_uin_f * (a / s.m_chi))
        inletO_mdot := s.m_rhoin_o * (s.m_uin_o * (a / s.m_chi))
        m_chi := a } := by
  simp only [setStrainRate, hx]
  rw [if_pos h]

/-- Evaluation of `setStrainRate` on the below-threshold branch. -/
theorem setStrainRate_noamplify_eval (s : Sim1DState) (nvar : ℕ) (x : ℕ → ℝ)
    (a : ℝ) (hx : x (nvar - 1) = a)
    (h : ¬ s.m_amplify_threshold < |s.m_chi - a|) :
    setStrainRate s nvar x = { s with m_chi := a } := by
  simp only [setStrainRate, hx]
  rw [if_neg h]

/-- Claim C10: `setStrainRate` never updates the stored inlet velocities
`m_uin_f`, `m_uin_o` or inlet densities `m_rhoin_f`, `m_rhoin_o`; on every
amplifying call the new inlet mass fluxes are the originally stored
`ρ_in · u_in` multiplied by that single call's ratio `x[N]/χ_current`. -/
theorem setStrainRate_preserves_inlet_params (s : Sim1DState) (nvar : ℕ)
    (x : ℕ → ℝ) :
    (setStrainRate s nvar x).m_uin_f = s.m_uin_f ∧
    (setStrainRate s nvar x).m_uin_o = s.m_uin_o ∧
    (setStrainRate s nvar x).m_rhoin_f = s.m_rhoin_f ∧
    (setStrainRate s nvar x).m_rhoin_o = s.m_rhoin_o ∧
    (s.m_amplify_threshold < |s.m_chi - x (nvar - 1)| →
      (setStrainRate s nvar x).inletF_mdot
        = s.m_rhoin_f * (s.m_uin_f * (x (nvar - 1) / s.m_chi)) ∧
      (setStrainRate s nvar x).inletO_mdot
        = s.m_rhoin_o * (s.m_uin_o * (x (nvar - 1) / s.m_chi))) := by
  by_cases h : s.m_amplify_threshold < |s.m_chi - x (nvar - 1)|
  · rw [setStrainRate_amplify_eval s nvar x (x (nvar - 1)) rfl h]
    exact ⟨rfl, rfl, rfl, rfl, fun _ => ⟨rfl, rfl⟩⟩
  · rw [setStrainRate_noamplify_eval s nvar x (x (nvar - 1)) rfl h]
    exact ⟨rfl, rfl, rfl, rfl, fun hc => absurd hc h⟩

theorem setStrainRate_preserves_inlet_params_witness :
    sampleState.m_amplify_threshold
      < |sampleState.m_chi - (fun _ : ℕ => (2 : ℝ)) (3 - 1)| ∧
    (setStrainRate sampleState 3 (fun _ => 2)).m_uin_f = sampleState.m_uin_f ∧
    (setStrainRate sampleState 3 (fun _ => 2)).inletF_mdot
      = sampleState.m_rhoin_f *
        (sampleState.m_uin_f * ((fun _ : ℕ => (2 : ℝ)) (3 - 1) / sampleState.m_chi)) := by
  have h : sampleState.m_amplify_threshold
      < |sampleState.m_chi - (fun _ : ℕ => (2 : ℝ)) (3 - 1)| := by
    show (1 / 2 : ℝ) < |(1 : ℝ) - 2|
    rw [show (1 : ℝ) - 2 = -1 by norm_num, abs_neg, abs_one]
    norm_num
  exact ⟨h, (setStrainRate_preserves_inlet_params sampleState 3 (fun _ => 2)).1,
    ((setStrainRate_preserves_inlet_params sampleState 3 (fun _ => 2)).2.2.2.2 h).1⟩

/-- Claim C1 (amended): an amplifying call scales every `u` and `V` value of
the flow domain by `r = x[N]/χ_current`, installs
`ṁ_f = ρ_in,f · u_in,f · r` and `ṁ_o = ρ_in,o · u_in,o · r` computed from the
originally stored inlet velocities, and stores `χ ← x[N]`; consequently the
flux ratio `ṁ_new/ṁ_old` equals `χ_new/χ_old` on an amplifying call whose
previous fluxes still equal `ρ_in · u_in` (in particular the first
amplifying call), but not in general across a sequence of amplifying
calls. -/
theorem setStrainRate_amplify_scales (s : Sim1DState) (nvar : ℕ) (x : ℕ → ℝ)
    (h : s.m_amplify_threshold < |s.m_chi - x (nvar - 1)|) (h2 : 2 ≤ s.nv) :
    (∀ i, i < s.np →
      (setStrainRate s nvar x).m_x (s.start1 + i * s.nv + c_offset_U)
        = s.m_x (s.start1 + i * s.nv + c_offset_U) * (x (nvar - 1) / s.m_chi) ∧
      (setStrainRate s nvar x).m_x (s.start1 + i * s.nv + c_offset_V)
        = s.m_x (s.start1 + i * s.nv + c_offset_V) * (x (nvar - 1) / s.m_chi)) ∧
    (setStrainRate s nvar x).inletF_mdot
      = s.m_rhoin_f * (s.m_uin_f * (x (nvar - 1) / s.m_chi)) ∧
    (setStrainRate s nvar x).inletO_mdot
      = s.m_rhoin_o * (s.m_uin_o * (x (nvar - 1) / s.m_chi)) ∧
    (setStrainRate s nvar x).m_chi = x (nvar - 1) ∧
    (s.inletF_mdot = s.m_rhoin_f * s.m_uin_f → s.inletF_mdot ≠ 0 →
      (setStrainRate s nvar x).inletF_mdot / s.inletF_mdot
        = x (nvar - 1) / s.m_chi) ∧
    (s.inletO_mdot = s.m_rhoin_o * s.m_uin_o → s.inletO_mdot ≠ 0 →
      (setStrainRate s nvar x).inletO_mdot / s.inletO_mdot
        = x (nvar - 1) / s.m_chi) := by
  rw [setStrainRate_amplify_eval s nvar x (x (nvar - 1)) rfl h]
  refine ⟨?_, rfl, rfl, rfl, ?_, ?_⟩
  · intro i hi
    exact (scaleUV_spec s.start1 s.nv (x (nvar - 1) / s.m_chi) h2 s.np s.m_x).2 i hi
  · intro he hne
    rw [he] at hne
    show s.m_rhoin_f * (s.m_uin_f * (x (nvar - 1) / s.m_chi)) / s.inletF_mdot
      = x (nvar - 1) / s.m_chi
    rw [he, ← mul_assoc]
    exact mul_div_cancel_left₀ _ hne
  · intro he hne
    rw [he] at hne
    show s.m_rhoin_o * (s.m_uin_o * (x (nvar - 1) / s.m_chi)) / s.inletO_mdot
      = x (nvar - 1) / s.m_chi
    rw [he, ← mul_assoc]
    exact mul_div_cancel_left₀ _ hne

theorem setStrainRate_amplify_scales_witness :
    sampleState.m_amplify_threshold
      < |sampleState.m_chi - (fun _ : ℕ => (2 : ℝ)) (3 - 1)| ∧
    2 ≤ sampleState.nv ∧
    (setStrainRate sampleState 3 (fun _ => 2)).m_x
        (sampleState.start1 + 0 * sampleState.nv + c_offset_U)
      = sampleState.m_x (sampleState.start1 + 0 * sampleState.nv + c_offset_U)
        * ((fun _ : ℕ => (2 : ℝ)) (3 - 1) / sampleState.m_chi) ∧
    (setStrainRate sampleState 3 (fun _ => 2)).inletF_mdot
      = sampleState.m_rhoin_f *
        (sampleState.m_uin_f * ((fun _ : ℕ => (2 : ℝ)) (3 - 1) / sampleState.m_chi)) ∧
    (setStrainRate sampleState 3 (fun _ => 2)).inletF_mdot / sampleState.inletF_mdot
      = (fun _ : ℕ => (2 : ℝ)) (3 - 1) / sampleState.m_chi := by
  have h : sampleState.m_amplify_threshold
      < |sampleState.m_chi - (fun _ : ℕ => (2 : ℝ)) (3 - 1)| := by
    show (1 / 2 : ℝ) < |(1 : ℝ) - 2|
    rw [show (1 : ℝ) - 2 = -1 by norm_num, abs_neg, abs_one]
    norm_num
  have h2 : 2 ≤ sampleState.nv := le_refl 2
  refine ⟨h, h2, ?_, ?_, ?_⟩
  · exact ((setStrainRate_amplify_scales sampleState 3 (fun _ => 2) h h2).1 0
      Nat.zero_lt_one).1
  · exact (setStrainRate_amplify_scales sampleState 3 (fun _ => 2) h h2).2.1
  · exact (setStrainRate_amplify_scales sampleState 3 (fun _ => 2) h h2).2.2.2.2.1
      (by show (1 : ℝ) = 1 * 1; norm_num) (by show (1 : ℝ) ≠ 0; norm_num)

/-- Claim C1 (counterexample): two successive amplifying calls on the sample
state (χ: 1 → 2, then 2 → 4).  Both calls amplify, yet after the second call
the fuel-inlet flux ratio is 1 while χ_new/χ_old is 2: the claimed identity
fails for later amplifying calls of a continuation sequence because the
stored inlet velocity is never rescaled. -/
theorem setStrainRate_sequence_ratio_cex :
    sampleState.m_amplify_threshold < |sampleState.m_chi - (2 : ℝ)| ∧
    seqState1.m_amplify_threshold < |seqState1.m_chi - (4 : ℝ)| ∧
    ¬ (seqState2.inletF_mdot / seqState1.inletF_mdot
        = seqState2.m_chi / seqState1.m_chi) := by
  have h1 : sampleState.m_amplify_threshold < |sampleState.m_chi - (2 : ℝ)| := by
    show (1 / 2 : ℝ) < |(1 : ℝ) - 2|
    rw [show (1 : ℝ) - 2 = -1 by norm_num, abs_neg, abs_one]
    norm_num
  have e1 : seqState1 =
      { sampleState with
        m_x := scaleUV sampleState.start1 sampleState.nv
          ((2 : ℝ) / sampleState.m_chi) sampleState.np sampleState.m_x
        inletF_mdot := sampleState.m_rhoin_f *
          (sampleState.m_uin_f * ((2 : ℝ) / sampleState.m_chi))
        inletO_mdot := sampleState.m_rhoin_o *
          (sampleState.m_uin_o * ((2 : ℝ) / sampleState.m_chi))
        m_chi := (2 : ℝ) } := by
    simp only [seqState1]
    exact setStrainRate_amplify_eval sampleState 3 (fun _ => 2) 2 rfl h1
  have h2 : seqState1.m_amplify_threshold < |seqState1.m_chi - (4 : ℝ)| := by
    rw [e1]
    show (1 / 2 : ℝ) < |(2 : ℝ) - 4|
    rw [show (2 : ℝ) - 4 = -2 by norm_num, abs_neg,
      abs_of_pos (show (0 : ℝ) < 2 by norm_num)]
    norm_num
  have e2 : seqState2 =
      { seqState1 with
        m_x := scaleUV seqState1.start1 seqState1.nv
          ((4 : ℝ) / seqState1.m_chi) seqState1.np seqState1.m_x
        inletF_mdot := seqState1.m_rhoin_f *
          (seqState1.m_uin_f * ((4 : ℝ) / seqState1.m_chi))
        inletO_mdot := seqState1.m_rhoin_o *
          (seqState1.m_uin_o * ((4 : ℝ) / seqState1.m_chi))
        m_chi := (4 : ℝ) } := by
    simp only [seqState2]
    exact setStrainRate_amplify_eval seqState1 3 (fun _ => 4) 4 rfl h2
  refine ⟨h1, h2, ?_⟩
  rw [e2, e1]
  show ¬ ((1 : ℝ) * (1 * (4 / 2)) / (1 * (1 * (2 / 1))) = 4 / 2)
  norm_num

/-- Claim C3 (counterexample): a below-threshold call (χ = 1, threshold 1/2,
x[N] = 6/5) leaves the flow values and fluxes alone but still overwrites the
stored strain rate with x[N], so the claim that the call changes no state is
false. -/
theorem setStrainRate_below_threshold_cex :
    ¬ (sampleState.m_amplify_threshold < |sampleState.m_chi - (6 / 5 : ℝ)|) ∧
    (setStrainRate sampleState 3 (fun _ => (6 / 5 : ℝ))).m_chi
      ≠ sampleState.m_chi := by
  have hn : ¬ (sampleState.m_amplify_threshold
      < |sampleState.m_chi - (6 / 5 : ℝ)|) := by
    show ¬ ((1 / 2 : ℝ) < |(1 : ℝ) - 6 / 5|)
    rw [show (1 : ℝ) - 6 / 5 = -(1 / 5) by norm_num, abs_neg,
      abs_of_pos (show (0 : ℝ) < 1 / 5 by norm_num)]
    norm_num
  refine ⟨hn, ?_⟩
  rw [setStrainRate_noamplify_eval sampleState 3 (fun _ => (6 / 5 : ℝ))
    (6 / 5) rfl hn]
  show (6 / 5 : ℝ) ≠ 1
  norm_num

/-- Claim C3 (amended): a call with `|x[N] − χ| ≤ τ` leaves the solution
vector, the inlet mass fluxes and the stored inlet parameters unchanged, but
it does store `x[N]` as the new strain rate (the assignment `m_chi = a1` sits
outside the threshold guard). -/
theorem setStrainRate_below_threshold_frame (s : Sim1DState) (nvar : ℕ)
    (x : ℕ → ℝ)
    (h : ¬ s.m_amplify_threshold < |s.m_chi - x (nvar - 1)|) :
    (setStrainRate s nvar x).m_x = s.m_x ∧
    (setStrainRate s nvar x).inletF_mdot = s.inletF_mdot ∧
    (setStrainRate s nvar x).inletO_mdot = s.inletO_mdot ∧
    (setStrainRate s nvar x).m_uin_f = s.m_uin_f ∧
    (setStrainRate s nvar x).m_uin_o = s.m_uin_o ∧
    (setStrainRate s nvar x).m_rhoin_f = s.m_rhoin_f ∧
    (setStrainRate s nvar x).m_rhoin_o = s.m_rhoin_o ∧
    (setStrainRate s nvar x).m_chi = x (nvar - 1) := by
  rw [setStrainRate_noamplify_eval s nvar x (x (nvar - 1)) rfl h]
  exact ⟨rfl, rfl, rfl, rfl, rfl, rfl, rfl, rfl⟩

theorem setStrainRate_below_threshold_frame_witness :
    ¬ (sampleState.m_amplify_threshold
        < |sampleState.m_chi - (fun _ : ℕ => (6 / 5 : ℝ)) (3 - 1)|) ∧
    (setStrainRate sampleState 3 (fun _ => (6 / 5 : ℝ))).m_x = sampleState.m_x ∧
    (setStrainRate sampleState 3 (fun _ => (6 / 5 : ℝ))).inletF_mdot
      = sampleState.inletF_mdot ∧
    (setStrainRate sampleState 3 (fun _ => (6 / 5 : ℝ))).m_chi
      = (fun _ : ℕ => (6 / 5 : ℝ)) (3 - 1) := by
  have hn : ¬ (sampleState.m_amplify_threshold
      < |sampleState.m_chi - (fun _ : ℕ => (6 / 5 : ℝ)) (3 - 1)|) := by
    show ¬ ((1 / 2 : ℝ) < |(1 : ℝ) - 6 / 5|)
    rw [show (1 : ℝ) - 6 / 5 = -(1 / 5) by norm_num, abs_neg,
      abs_of_pos (show (0 : ℝ) < 1 / 5 by norm_num)]
    norm_num
  exact ⟨hn,
    (setStrainRate_below_threshold_frame sampleState 3 (fun _ => (6 / 5 : ℝ)) hn).1,
    (setStrainRate_below_threshold_frame sampleState 3 (fun _ => (6 / 5 : ℝ)) hn).2.1,
    (setStrainRate_below_threshold_frame sampleState 3 (fun _ => (6 / 5 : ℝ)) hn).2.2.2.2.2.2.2⟩

/-- Claim C9: `bound_residue` writes only the simulation's solution vector
(and the output residual array): the input `x` and the bound vectors `lb`,
`ub` are read-only, the continuation parameters are untouched, and the new
solution is the clamped copy of `x`. -/
theorem bound_residue_frame (F : (ℕ → ℝ) → ℕ → ℝ) (s : Sim1DState)
    (nvar : ℕ) (x : ℕ → ℝ) :
    (bound_residue F s nvar x).1 = setSolution s (xBorder s.lb s.ub x) ∧
    (bound_residue F s nvar x).1.lb = s.lb ∧
    (bound_residue F s nvar x).1.ub = s.ub ∧
    (bound_residue F s nvar x).1.m_chi = s.m_chi ∧
    (bound_residue F s nvar x).1.m_amplify_threshold = s.m_amplify_threshold ∧
    (bound_residue F s nvar x).1.m_uin_f = s.m_uin_f ∧
    (bound_residue F s nvar x).1.m_uin_o = s.m_uin_o ∧
    (bound_residue F s nvar x).1.m_rhoin_f = s.m_rhoin_f ∧
    (bound_residue F s nvar x).1.m_rhoin_o = s.m_rhoin_o ∧
    (bound_residue F s nvar x).1.inletF_mdot = s.inletF_mdot ∧
    (bound_residue F s nvar x).1.inletO_mdot = s.inletO_mdot ∧
    (bound_residue F s nvar x).1.m_x =
      fun i => if i < s.sysSize then xBorder s.lb s.ub x i else s.m_x i :=
  ⟨rfl, rfl, rfl, rfl, rfl, rfl, rfl, rfl, rfl, rfl, rfl, rfl⟩

theorem xBorder_eq_clamp (lb ub x : ℕ → ℝ) (i : ℕ) (h : lb i ≤ ub i) :
    xBorder lb ub x i = max (lb i) (min (ub i) (x i)) := by
  unfold xBorder
  by_cases h1 : x i < lb i
  · rw [if_pos h1, min_eq_right (le_of_lt (lt_of_lt_of_le h1 h)),
      max_eq_left (le_of_lt h1)]
  · rw [if_neg h1]
    by_cases h2 : ub i < x i
    · rw [if_pos h2, min_eq_left (le_of_lt h2), max_eq_right h]
    · rw [if_neg h2, min_eq_right (not_lt.mp h2), max_eq_right (not_lt.mp h1)]

theorem excessAcc_eq_sum (lb ub x : ℕ → ℝ) (n : ℕ)
    (h : ∀ i, i < n → lb i ≤ ub i) :
    excessAcc lb ub x n =
      Finset.sum (Finset.range n)
        (fun i => max (lb i - x i) 0 + max (x i - ub i) 0) := by
  induction n with
  | zero => simp [excessAcc]
  | succ n ih =>
    rw [excessAcc, Finset.sum_range_succ,
      ih (fun i hi => h i (Nat.lt_succ_of_lt hi))]
    congr 1
    have hn := h n (Nat.lt_succ_self n)
    by_cases h1 : x n < lb n
    · rw [if_pos h1, max_eq_left (by linarith : (0 : ℝ) ≤ lb n - x n),
        max_eq_right (by linarith : x n - ub n ≤ (0 : ℝ))]
      ring
    · rw [if_neg h1]
      have hlb : lb n ≤ x n := not_lt.mp h1
      by_cases h2 : ub n < x n
      · rw [if_pos h2, max_eq_right (by linarith : lb n - x n ≤ (0 : ℝ)),
          max_eq_left (by linarith : (0 : ℝ) ≤ x n - ub n)]
        ring
      · rw [if_neg h2, max_eq_right (by linarith : lb n - x n ≤ (0 : ℝ)),
          max_eq_right (by have := not_lt.mp h2; linarith : x n - ub n ≤ (0 : ℝ))]
        ring

theorem excessAcc_eq_zero (lb ub x : ℕ → ℝ) (n : ℕ)
    (h : ∀ i, i < n → lb i ≤ x i ∧ x i ≤ ub i) :
    excessAcc lb ub x n = 0 := by
  induction n with
  | zero => rfl
  | succ n ih =>
    rw [excessAcc, ih (fun i hi => h i (Nat.lt_succ_of_lt hi)),
      if_neg (not_lt.mpr (h n (Nat.lt_succ_self n)).1),
      if_neg (not_lt.mpr (h n (Nat.lt_succ_self n)).2)]
    ring

/-- Claim C2 (amended): `bound_residue` projects `x` onto the bounds,
accumulates `excess = Σ max(lb−x,0) + Σ max(x−ub,0)`, evaluates the steady
residual at the projected point, and replaces every component `f_i` by
`f_i + (f_i + p_i)·excess` where the perturbation is `p_i = +ε_min` when
`f_i > 0` and `p_i = −ε_min` otherwise (in particular `−ε_min` when
`f_i = 0`, rather than the claimed `sign(f_i)·ε_min = 0`); when `x` lies
inside the bounds the output is the unmodified residual. -/
theorem bound_residue_spec (F : (ℕ → ℝ) → ℕ → ℝ) (s : Sim1DState)
    (nvar : ℕ) (x : ℕ → ℝ) (hlu : ∀ i, i < nvar → s.lb i ≤ s.ub i) :
    (∀ i, i < nvar →
      xBorder s.lb s.ub x i = max (s.lb i) (min (s.ub i) (x i))) ∧
    excessAcc s.lb s.ub x nvar =
      Finset.sum (Finset.range nvar)
        (fun i => max (s.lb i - x i) 0 + max (x i - s.ub i) 0) ∧
    (∀ i, i < nvar →
      (bound_residue F s nvar x).2 i =
        F ((setSolution s (xBorder s.lb s.ub x)).m_x) i +
          (F ((setSolution s (xBorder s.lb s.ub x)).m_x) i +
            (if 0 < F ((setSolution s (xBorder s.lb s.ub x)).m_x) i
             then minIncr else -minIncr)) *
          excessAcc s.lb s.ub x nvar) ∧
    ((∀ i, i < nvar → s.lb i ≤ x i ∧ x i ≤ s.ub i) →
      ∀ i, (bound_residue F s nvar x).2 i =
        F ((setSolution s (xBorder s.lb s.ub x)).m_x) i) := by
  refine ⟨fun i hi => xBorder_eq_clamp s.lb s.ub x i (hlu i hi),
    excessAcc_eq_sum s.lb s.ub x nvar hlu, fun i hi => ?_, fun hin i => ?_⟩
  · simp only [bound_residue]
    rw [if_pos hi]
  · simp only [bound_residue]
    by_cases hi : i < nvar
    · rw [if_pos hi, excessAcc_eq_zero s.lb s.ub x nvar hin]
      ring
    · rw [if_neg hi]

theorem bound_residue_spec_witness :
    (∀ i, i < 1 → sampleState.lb i ≤ sampleState.ub i) ∧
    xBorder sampleState.lb sampleState.ub (fun _ => (1 / 2 : ℝ)) 0 =
      max (sampleState.lb 0)
        (min (sampleState.ub 0) ((fun _ => (1 / 2 : ℝ)) 0)) ∧
    excessAcc sampleState.lb sampleState.ub (fun _ => (1 / 2 : ℝ)) 1 =
      Finset.sum (Finset.range 1)
        (fun i => max (sampleState.lb i - (fun _ => (1 / 2 : ℝ)) i) 0 +
          max ((fun _ => (1 / 2 : ℝ)) i - sampleState.ub i) 0) ∧
    (bound_residue oneResidualF sampleState 1 (fun _ => (1 / 2 : ℝ))).2 0 =
      oneResidualF ((setSolution sampleState
          (xBorder sampleState.lb sampleState.ub (fun _ => (1 / 2 : ℝ)))).m_x) 0 +
        (oneResidualF ((setSolution sampleState
            (xBorder sampleState.lb sampleState.ub (fun _ => (1 / 2 : ℝ)))).m_x) 0 +
          (if 0 < oneResidualF ((setSolution sampleState
              (xBorder sampleState.lb sampleState.ub (fun _ => (1 / 2 : ℝ)))).m_x) 0
           then minIncr else -minIncr)) *
        excessAcc sampleState.lb sampleState.ub (fun _ => (1 / 2 : ℝ)) 1 := by
  have hlu : ∀ i, i < 1 → sampleState.lb i ≤ sampleState.ub i := by
    intro i _
    show (0 : ℝ) ≤ 1
    norm_num
  refine ⟨hlu, ?_, ?_, ?_⟩
  · exact (bound_residue_spec oneResidualF sampleState 1
      (fun _ => (1 / 2 : ℝ)) hlu).1 0 Nat.zero_lt_one
  · exact (bound_residue_spec oneResidualF sampleState 1
      (fun _ => (1 / 2 : ℝ)) hlu).2.1
  · exact (bound_residue_spec oneResidualF sampleState 1
      (fun _ => (1 / 2 : ℝ)) hlu).2.2.1 0 Nat.zero_lt_one

/-- Claim C2 (counterexample): with well-formed bounds `[0, 1]`, the input
`x ≡ 2` (so `excess = 1`) and the identically-zero residual evaluator, the
code outputs `0 + (0 + (−ε_min))·1 = −10⁻³` while the claimed formula
`f + (f + sign(f)·ε_min)·excess` gives `0`: the claimed perturbation
`sign(f_i)·ε_min` does not match the source when `f_i = 0`. -/
theorem bound_residue_sign_cex :
    (∀ i, i < 1 → sampleState.lb i ≤ sampleState.ub i) ∧
    ¬ ((bound_residue zeroResidualF sampleState 1 (fun _ => (2 : ℝ))).2 0 =
        boundResidueSpecOutput zeroResidualF sampleState 1 (fun _ => (2 : ℝ)) 0) := by
  constructor
  · intro i _
    show (0 : ℝ) ≤ 1
    norm_num
  · have hL : (bound_residue zeroResidualF sampleState 1 (fun _ => (2 : ℝ))).2 0
        = -minIncr := by
      simp only [bound_residue, zeroResidualF]
      rw [if_pos Nat.zero_lt_one]
      have hexc : excessAcc sampleState.lb sampleState.ub (fun _ => (2 : ℝ)) 1 = 1 := by
        show (0 : ℝ) +
          (if (2 : ℝ) < sampleState.lb 0 then sampleState.lb 0 - 2
           else if sampleState.ub 0 < 2 then 2 - sampleState.ub 0 else 0) = 1
        rw [if_neg (by show ¬ ((2 : ℝ) < 0); norm_num),
          if_pos (by show (1 : ℝ) < 2; norm_num)]
        show (0 : ℝ) + (2 - 1) = 1
        norm_num
      rw [hexc, if_neg (lt_irrefl 0)]
      ring
    have hR : boundResidueSpecOutput zeroResidualF sampleState 1
        (fun _ => (2 : ℝ)) 0 = 0 := by
      simp only [boundResidueSpecOutput, zeroResidualF]
      rw [Real.sign_zero]
      ring
    rw [hL, hR]
    show ¬ (-minIncr = (0 : ℝ))
    unfold minIncr
    norm_num

/-- Claim C4 (counterexample): `Sim1D::solve` is declared `void` in the
header, so it does not return an integer exit code at all; the 0/−1 contract
belongs to `newtonSolve`. -/
theorem solve_return_type_cex :
    declaredReturnType SolverMethod.solveMethod ≠ CReturnType.intTy := by
  decide

/-- Claim C4 (amended): `solve` is declared `void` and returns no exit code;
`newtonSolve` is declared `int` and its documented contract returns 0 on
success and −1 on failure; `refine` is declared `int` and returns the number
of grid changes, 0 meaning the mesh is converged. -/
theorem solver_exit_codes :
    declaredReturnType SolverMethod.solveMethod = CReturnType.voidTy ∧
    declaredReturnType SolverMethod.refineMethod = CReturnType.intTy ∧
    declaredReturnType SolverMethod.newtonSolveMethod = CReturnType.intTy ∧
    newtonSolveReturn true = 0 ∧
    newtonSolveReturn false = -1 ∧
    (∀ n : ℕ, refineReturn n = 0 ↔ meshConverged n) := by
  refine ⟨rfl, rfl, rfl, rfl, rfl, fun n => ?_⟩
  unfold refineReturn meshConverged
  exact_mod_cast Iff.rfl

end Sim1D

end CanteraSpray
